import Mathlib

/-!
Verification of the core logic of `namer`, a browser-based batch
file-renaming utility.  Strings are modelled as lists of characters;
the React component state is modelled as a structure and every event
handler as a pure state transition.  The export routine is modelled as
a function from the component state to the download action it triggers.
-/

namespace Namer

/-- Character strings, modelled as lists of characters. -/
abbrev Str := List Char

/-- The set of characters JavaScript `String.prototype.trim` removes:
ECMAScript WhiteSpace and LineTerminator code points. -/
def isJsWhitespace (c : Char) : Bool :=
  c = ' ' || c = '\t' || c = '\n' || c = '\r' ||
  c = (Char.ofNat 11) || c = (Char.ofNat 12) ||
  c = (Char.ofNat 0xA0) || c = (Char.ofNat 0x1680) ||
  (0x2000 ≤ c.toNat && c.toNat ≤ 0x200A) ||
  c = (Char.ofNat 0x2028) || c = (Char.ofNat 0x2029) ||
  c = (Char.ofNat 0x202F) || c = (Char.ofNat 0x205F) ||
  c = (Char.ofNat 0x3000) || c = (Char.ofNat 0xFEFF)

/-- JavaScript `s.trim()`: strips leading and trailing whitespace. -/
def jsTrim (s : Str) : Str :=
  ((s.dropWhile isJsWhitespace).reverse.dropWhile isJsWhitespace).reverse

/-- JavaScript `s.lastIndexOf(c)` for a single character: the largest
index at which `c` occurs in `s`, or `-1` if it does not occur. -/
def lastIndexOfChar (c : Char) : Str → Int
  | [] => -1
  | a :: rest =>
    let r := lastIndexOfChar c rest
    if 0 ≤ r then r + 1
    else if a = c then 0 else -1

/-- `getExtension` from `src/app/page.tsx`: the substring from the last
`.` to the end of the filename, or the empty string if there is no `.`. -/
def getExtension (filename : Str) : Str :=
  let lastDot := lastIndexOfChar '.' filename
  if lastDot ≠ -1 then filename.drop lastDot.toNat else []

/-- `getBaseName` from `src/app/page.tsx`: the filename up to (not
including) the last `.`, or the whole filename if there is no `.`. -/
def getBaseName (filename : Str) : Str :=
  let lastDot := lastIndexOfChar '.' filename
  if lastDot ≠ -1 then filename.take lastDot.toNat else filename

/-- A file as supplied by the browser: its name and its binary payload. -/
structure JSFile where
  name : Str
  payload : List Nat
deriving DecidableEq

/-- One pending rename operation (the `FileItem` interface of the source). -/
structure FileItem where
  original : JSFile
  newBaseName : Str
  extension : Str
  receiverName : Str
deriving DecidableEq

/-- The component state of `Home`: the entry list plus the date/name
configuration held in the individual `useState` cells. -/
structure AppState where
  files : List FileItem
  year : Str
  month : Str
  day : Str
  includeDay : Bool
  senderName : Str
  includeSender : Bool
deriving DecidableEq

/-- `buildPrefix` from `src/app/page.tsx`: sequentially appends the
trimmed receiver name, the year and month, the optional day and the
optional trimmed sender name, each followed by an underscore. -/
def buildPrefix (s : AppState) (receiverName : Str) : Str :=
  let p0 : Str := []
  let p1 := if jsTrim receiverName ≠ [] then p0 ++ jsTrim receiverName ++ ['_'] else p0
  let p2 := p1 ++ s.year ++ ['_'] ++ s.month ++ ['_']
  let p3 := if s.includeDay = true then p2 ++ s.day ++ ['_'] else p2
  let p4 := if s.includeSender = true ∧ jsTrim s.senderName ≠ [] then
      p3 ++ jsTrim s.senderName ++ ['_']
    else p3
  p4

/-- The final output name of one entry:
`buildPrefix(file.receiverName) + file.newBaseName + file.extension`. -/
def finalName (s : AppState) (file : FileItem) : Str :=
  buildPrefix s file.receiverName ++ file.newBaseName ++ file.extension

/-- JavaScript `Array.prototype.map` with the element index, starting at
the given counter. -/
def mapWithIndexAux {α : Type} (g : α → Nat → α) : Nat → List α → List α
  | _, [] => []
  | i, a :: rest => g a i :: mapWithIndexAux g (i + 1) rest

/-- JavaScript `Array.prototype.map((x, i) => ...)`. -/
def mapWithIndex {α : Type} (g : α → Nat → α) (l : List α) : List α :=
  mapWithIndexAux g 0 l

/-- JavaScript `Array.prototype.filter` with the element index, starting
at the given counter. -/
def filterWithIndexAux {α : Type} (p : α → Nat → Bool) : Nat → List α → List α
  | _, [] => []
  | i, a :: rest =>
    if p a i then a :: filterWithIndexAux p (i + 1) rest
    else filterWithIndexAux p (i + 1) rest

/-- JavaScript `Array.prototype.filter((x, i) => ...)`. -/
def filterWithIndex {α : Type} (p : α → Nat → Bool) (l : List α) : List α :=
  filterWithIndexAux p 0 l

/-- `handleFiles`: appends one new entry per supplied file, with the base
name and extension derived from the original filename and an empty
receiver name. -/
def handleFiles (s : AppState) (newFiles : List JSFile) : AppState :=
  { s with
    files := s.files ++ newFiles.map (fun file =>
      { original := file
        newBaseName := getBaseName file.name
        extension := getExtension file.name
        receiverName := [] }) }

/-- `updateFileName`: replaces the `newBaseName` of the entry at `index`,
leaving every other field and entry unchanged. -/
def updateFileName (s : AppState) (index : Nat) (newName : Str) : AppState :=
  { s with
    files := mapWithIndex
      (fun file i => if i == index then { file with newBaseName := newName } else file)
      s.files }

/-- `updateReceiverName`: replaces the `receiverName` of the entry at
`index`, leaving every other field and entry unchanged. -/
def updateReceiverName (s : AppState) (index : Nat) (newReceiverName : Str) : AppState :=
  { s with
    files := mapWithIndex
      (fun file i => if i == index then { file with receiverName := newReceiverName } else file)
      s.files }

/-- `removeFile`: drops the entry at `index` (JS `filter((_, i) => i !== index)`). -/
def removeFile (s : AppState) (index : Nat) : AppState :=
  { s with files := filterWithIndex (fun _ i => i != index) s.files }

/-- `clearFiles`: drops every entry. -/
def clearFiles (s : AppState) : AppState :=
  { s with files := [] }

/-- The download action `downloadFiles` triggers: nothing, one direct
download of a payload under a filename, or one download of an archive
holding a list of (archive-internal path, payload) entries under a
filename. -/
inductive ExportResult where
  | noDownload : ExportResult
  | single : JSFile → Str → ExportResult
  | archive : List (Str × JSFile) → Str → ExportResult
deriving DecidableEq

/-- `downloadFiles` from `src/app/page.tsx`, as a pure transition: the
component state it leaves behind (it never calls `setFiles`) paired with
the download action it triggers. -/
def downloadFiles (s : AppState) : AppState × ExportResult :=
  if s.files.length = 0 then (s, ExportResult.noDownload)
  else if s.files.length = 1 then
    match s.files with
    | [] => (s, ExportResult.noDownload)
    | file :: _ =>
      (s, ExportResult.single file.original
            (buildPrefix s file.receiverName ++ file.newBaseName ++ file.extension))
  else
    (s, ExportResult.archive
          (s.files.map fun file =>
            (buildPrefix s file.receiverName ++ file.newBaseName ++ file.extension,
             file.original))
          (("namer_").data ++ buildPrefix s [] ++ ("files.zip").data))

/-- The payloads a download action ships, in order. -/
def exportedPayloads : ExportResult → List JSFile
  | ExportResult.noDownload => []
  | ExportResult.single payload _ => [payload]
  | ExportResult.archive entries _ => entries.map Prod.snd

/-! ### Supporting lemmas -/

theorem jsTrim_eq_nil_of_all_ws (r : Str) (h : ∀ c ∈ r, isJsWhitespace c = true) :
    jsTrim r = [] := by
  unfold jsTrim
  have h1 : r.dropWhile isJsWhitespace = [] := List.dropWhile_eq_nil_iff.mpr h
  simp [h1]

theorem jsTrim_nil : jsTrim [] = [] := rfl

/-! ### Claims -/

/-- C1: `buildPrefix` returns exactly the concatenation, in this fixed
order, of: the trimmed receiver name followed by an underscore (only if
the trimmed receiver name is non-empty), then `year_month_` (always),
then `day_` (only if day-inclusion is enabled), then the trimmed sender
name followed by an underscore (only if sender-inclusion is enabled and
the trimmed sender name is non-empty); and a whitespace-only receiver
yields the same output as an empty receiver. -/
theorem buildPrefix_segments (s : AppState) (r : Str) :
    (buildPrefix s r =
      (if jsTrim r ≠ [] then jsTrim r ++ ['_'] else []) ++
      (s.year ++ ['_'] ++ s.month ++ ['_']) ++
      (if s.includeDay = true then s.day ++ ['_'] else []) ++
      (if s.includeSender = true ∧ jsTrim s.senderName ≠ [] then
        jsTrim s.senderName ++ ['_'] else [])) ∧
    ((∀ c ∈ r, isJsWhitespace c = true) → buildPrefix s r = buildPrefix s []) := by
  constructor
  · unfold buildPrefix
    by_cases h1 : jsTrim r ≠ [] <;>
      by_cases h2 : s.includeDay = true <;>
      by_cases h3 : s.includeSender = true ∧ jsTrim s.senderName ≠ [] <;>
      simp [h1, h2, h3, List.append_assoc]
  · intro h
    have hr : jsTrim r = [] := jsTrim_eq_nil_of_all_ws r h
    simp [buildPrefix, hr, jsTrim_nil]

/-- Witness for C1 at a concrete state and a whitespace-only receiver. -/
theorem buildPrefix_segments_witness :
    buildPrefix
        { files := [], year := ("2024").data, month := ("03").data, day := ("01").data,
          includeDay := false, senderName := [], includeSender := false }
        (("  ").data) =
      buildPrefix
        { files := [], year := ("2024").data, month := ("03").data, day := ("01").data,
          includeDay := false, senderName := [], includeSender := false }
        [] :=
  (buildPrefix_segments
    { files := [], year := ("2024").data, month := ("03").data, day := ("01").data,
      includeDay := false, senderName := [], includeSender := false }
    (("  ").data)).2 (by decide)

/-- C7: three concrete prefix computations: with day and sender disabled,
year 2024 and month 03, the empty receiver gives `2024_03_` and the
receiver `Acme` gives `Acme_2024_03_`; with day 07 enabled and sender
`Bob` enabled, year 2024 and month 12, the empty receiver gives
`2024_12_07_Bob_`. -/
theorem buildPrefix_examples :
    buildPrefix
        { files := [], year := ("2024").data, month := ("03").data, day := ("01").data,
          includeDay := false, senderName := [], includeSender := false } [] =
      ("2024_03_").data ∧
    buildPrefix
        { files := [], year := ("2024").data, month := ("03").data, day := ("01").data,
          includeDay := false, senderName := [], includeSender := false }
        (("Acme").data) =
      ("Acme_2024_03_").data ∧
    buildPrefix
        { files := [], year := ("2024").data, month := ("12").data, day := ("07").data,
          includeDay := true, senderName := ("Bob").data, includeSender := true } [] =
      ("2024_12_07_Bob_").data := by
  refine ⟨by decide, by decide, by decide⟩

/-- C4: exporting an empty entry list is a no-op: no download is
triggered, no archive is created, and the state is unchanged. -/
theorem downloadFiles_empty_noop (s : AppState) (h : s.files = []) :
    downloadFiles s = (s, ExportResult.noDownload) := by
  simp [downloadFiles, h]

/-- Witness for C4 at a concrete empty state. -/
theorem downloadFiles_empty_noop_witness :
    downloadFiles
        { files := [], year := ("2024").data, month := ("03").data, day := ("01").data,
          includeDay := false, senderName := [], includeSender := false } =
      ({ files := [], year := ("2024").data, month := ("03").data, day := ("01").data,
         includeDay := false, senderName := [], includeSender := false },
       ExportResult.noDownload) :=
  downloadFiles_empty_noop
    { files := [], year := ("2024").data, month := ("03").data, day := ("01").data,
      includeDay := false, senderName := [], includeSender := false } rfl

/-- C2: with exactly one entry, export triggers exactly one direct
download of that entry's original payload under
`buildPrefix(entry.receiverName) + entry.newBaseName + entry.extension`,
and no archive is created; the state is untouched. -/
theorem downloadFiles_single (s : AppState) (f : FileItem) (h : s.files = [f]) :
    downloadFiles s =
      (s, ExportResult.single f.original
            (buildPrefix s f.receiverName ++ f.newBaseName ++ f.extension)) := by
  simp [downloadFiles, h]

/-- Witness for C2 at a concrete one-entry state. -/
theorem downloadFiles_single_witness :
    downloadFiles
        { files := [{ original := { name := ("report.pdf").data, payload := [1, 2, 3] },
                      newBaseName := ("report").data, extension := (".pdf").data,
                      receiverName := ("Acme").data }],
          year := ("2024").data, month := ("03").data, day := ("01").data,
          includeDay := false, senderName := [], includeSender := false } =
      ({ files := [{ original := { name := ("report.pdf").data, payload := [1, 2, 3] },
                     newBaseName := ("report").data, extension := (".pdf").data,
                     receiverName := ("Acme").data }],
         year := ("2024").data, month := ("03").data, day := ("01").data,
         includeDay := false, senderName := [], includeSender := false },
       ExportResult.single { name := ("report.pdf").data, payload := [1, 2, 3] }
         (buildPrefix
            { files := [{ original := { name := ("report.pdf").data, payload := [1, 2, 3] },
                          newBaseName := ("report").data, extension := (".pdf").data,
                          receiverName := ("Acme").data }],
              year := ("2024").data, month := ("03").data, day := ("01").data,
              includeDay := false, senderName := [], includeSender := false }
            (("Acme").data) ++ ("report").data ++ (".pdf").data)) :=
  downloadFiles_single
    { files := [{ original := { name := ("report.pdf").data, payload := [1, 2, 3] },
                  newBaseName := ("report").data, extension := (".pdf").data,
                  receiverName := ("Acme").data }],
      year := ("2024").data, month := ("03").data, day := ("01").data,
      includeDay := false, senderName := [], includeSender := false }
    { original := { name := ("report.pdf").data, payload := [1, 2, 3] },
      newBaseName := ("report").data, extension := (".pdf").data,
      receiverName := ("Acme").data }
    rfl

/-- C3: with two or more entries, export triggers exactly one download of
a single archive whose filename is `namer_` + `buildPrefix` with no
receiver + `files.` + the archive extension `zip`, and which contains one
entry per input file, stored under that file's computed final name. -/
theorem downloadFiles_archive (s : AppState) (h : 2 ≤ s.files.length) :
    downloadFiles s =
      (s, ExportResult.archive
            (s.files.map fun file =>
              (buildPrefix s file.receiverName ++ file.newBaseName ++ file.extension,
               file.original))
            (("namer_").data ++ buildPrefix s [] ++ ("files.").data ++ ("zip").data)) := by
  have h0 : ¬ s.files.length = 0 := by omega
  have h1 : ¬ s.files.length = 1 := by omega
  have hfz : ("files.zip").data = ("files.").data ++ ("zip").data := by decide
  simp [downloadFiles, h0, h1, hfz, List.append_assoc]

/-- Witness for C3 at a concrete two-entry state. -/
theorem downloadFiles_archive_witness :
    downloadFiles
        { files := [{ original := { name := ("a.txt").data, payload := [1] },
                      newBaseName := ("a").data, extension := (".txt").data,
                      receiverName := [] },
                    { original := { name := ("b.txt").data, payload := [2] },
                      newBaseName := ("b").data, extension := (".txt").data,
                      receiverName := [] }],
          year := ("2024").data, month := ("03").data, day := ("01").data,
          includeDay := false, senderName := [], includeSender := false } =
      ({ files := [{ original := { name := ("a.txt").data, payload := [1] },
                     newBaseName := ("a").data, extension := (".txt").data,
                     receiverName := [] },
                   { original := { name := ("b.txt").data, payload := [2] },
                     newBaseName := ("b").data, extension := (".txt").data,
                     receiverName := [] }],
         year := ("2024").data, month := ("03").data, day := ("01").data,
         includeDay := false, senderName := [], includeSender := false },
       ExportResult.archive
         (([{ original := { name := ("a.txt").data, payload := [1] },
              newBaseName := ("a").data, extension := (".txt").data,
              receiverName := [] },
            { original := { name := ("b.txt").data, payload := [2] },
              newBaseName := ("b").data, extension := (".txt").data,
              receiverName := [] }] : List FileItem).map fun file =>
           (buildPrefix
              { files := [{ original := { name := ("a.txt").data, payload := [1] },
                            newBaseName := ("a").data, extension := (".txt").data,
                            receiverName := [] },
                          { original := { name := ("b.txt").data, payload := [2] },
                            newBaseName := ("b").data, extension := (".txt").data,
                            receiverName := [] }],
                year := ("2024").data, month := ("03").data, day := ("01").data,
                includeDay := false, senderName := [], includeSender := false }
              file.receiverName ++ file.newBaseName ++ file.extension, file.original))
         (("namer_").data ++
          buildPrefix
            { files := [{ original := { name := ("a.txt").data, payload := [1] },
                          newBaseName := ("a").data, extension := (".txt").data,
                          receiverName := [] },
                        { original := { name := ("b.txt").data, payload := [2] },
                          newBaseName := ("b").data, extension := (".txt").data,
                          receiverName := [] }],
              year := ("2024").data, month := ("03").data, day := ("01").data,
              includeDay := false, senderName := [], includeSender := false } [] ++
          ("files.").data ++ ("zip").data)) :=
  downloadFiles_archive
    { files := [{ original := { name := ("a.txt").data, payload := [1] },
                  newBaseName := ("a").data, extension := (".txt").data,
                  receiverName := [] },
                { original := { name := ("b.txt").data, payload := [2] },
                  newBaseName := ("b").data, extension := (".txt").data,
                  receiverName := [] }],
      year := ("2024").data, month := ("03").data, day := ("01").data,
      includeDay := false, senderName := [], includeSender := false }
    (by decide)

/-- The export leaves the component state untouched: the source of
`downloadFiles` never calls `setFiles` or any other state setter. -/
theorem downloadFiles_fst (s : AppState) : (downloadFiles s).1 = s := by
  unfold downloadFiles
  split
  · rfl
  · split
    · split <;> rfl
    · rfl

/-- C6: export is read-only: the state (hence every entry and all its
fields) is unchanged, and the payloads shipped by the triggered download
are exactly the entries' original payloads, unmodified and in order. -/
theorem downloadFiles_readonly (s : AppState) :
    (downloadFiles s).1 = s ∧
    exportedPayloads (downloadFiles s).2 = s.files.map FileItem.original := by
  refine ⟨downloadFiles_fst s, ?_⟩
  rcases hf : s.files with _ | ⟨f, _ | ⟨g, rest⟩⟩ <;>
    simp [downloadFiles, hf, exportedPayloads, List.map_map, Function.comp]

/-- Mapping a function over an index-based filter whose predicate ignores
the element commutes with the filter. -/
theorem map_filterWithIndexAux {α β : Type} (g : α → β) (p : Nat → Bool) :
    ∀ (n : Nat) (l : List α),
      (filterWithIndexAux (fun _ i => p i) n l).map g =
        filterWithIndexAux (fun _ i => p i) n (l.map g) := by
  intro n l
  induction l generalizing n with
  | nil => rfl
  | cons a rest ih =>
    by_cases h : p n = true <;> simp [filterWithIndexAux, h, ih]

/-- C8: removing the entry at any index does not change the computed
final name of any remaining entry: the final names after removal are
exactly the final names before removal with the removed position filtered
out. -/
theorem removeFile_preserves_names (s : AppState) (idx : Nat) :
    (removeFile s idx).files.map (finalName (removeFile s idx)) =
      filterWithIndex (fun _ i => i != idx) (s.files.map (finalName s)) := by
  have hcfg : finalName (removeFile s idx) = finalName s := rfl
  rw [hcfg]
  exact map_filterWithIndexAux (finalName s) (fun i => i != idx) 0 s.files

/-- An index-based map whose transformer preserves the extension field
preserves the list of extensions. -/
theorem extension_mapWithIndexAux (g : FileItem → Nat → FileItem)
    (hg : ∀ f i, (g f i).extension = f.extension) :
    ∀ (n : Nat) (l : List FileItem),
      (mapWithIndexAux g n l).map FileItem.extension = l.map FileItem.extension := by
  intro n l
  induction l generalizing n with
  | nil => rfl
  | cons a rest ih => simp [mapWithIndexAux, hg, ih]

/-- C9: the extension field is fixed at entry creation (derived from the
original filename by `getExtension`) and is never changed afterwards:
editing a base name, editing a receiver name, and exporting all leave
every entry's extension unchanged. -/
theorem extension_never_recomputed :
    (∀ (s : AppState) (newFiles : List JSFile),
      (handleFiles s newFiles).files.map FileItem.extension =
        s.files.map FileItem.extension ++ newFiles.map (fun f => getExtension f.name)) ∧
    (∀ (s : AppState) (idx : Nat) (newName : Str),
      (updateFileName s idx newName).files.map FileItem.extension =
        s.files.map FileItem.extension) ∧
    (∀ (s : AppState) (idx : Nat) (newReceiverName : Str),
      (updateReceiverName s idx newReceiverName).files.map FileItem.extension =
        s.files.map FileItem.extension) ∧
    (∀ s : AppState,
      (downloadFiles s).1.files.map FileItem.extension =
        s.files.map FileItem.extension) := by
  refine ⟨?_, ?_, ?_, ?_⟩
  · intro s newFiles
    simp [handleFiles, List.map_map, Function.comp]
  · intro s idx newName
    exact extension_mapWithIndexAux _
      (by intro f i; by_cases h : i == idx <;> simp [h]) 0 s.files
  · intro s idx newReceiverName
    exact extension_mapWithIndexAux _
      (by intro f i; by_cases h : i == idx <;> simp [h]) 0 s.files
  · intro s
    rw [downloadFiles_fst s]

/-- If a character does not occur in a string, its last index is `-1`. -/
theorem lastIndexOfChar_of_not_mem (c : Char) :
    ∀ s : Str, c ∉ s → lastIndexOfChar c s = -1 := by
  intro s
  induction s with
  | nil => intro _; rfl
  | cons a rest ih =>
    intro h
    have ha : ¬ a = c := fun e => h (e ▸ List.mem_cons_self a rest)
    have hrest : c ∉ rest := fun hm => h (List.mem_cons_of_mem a hm)
    simp [lastIndexOfChar, ih hrest, ha]

/-- If a character occurs in a string, its last index is a position where
it occurs, with no later occurrence. -/
theorem lastIndexOfChar_of_mem (c : Char) :
    ∀ s : Str, c ∈ s →
      ∃ n : Nat, lastIndexOfChar c s = (n : Int) ∧
        ∃ t : Str, s.drop n = c :: t ∧ c ∉ t := by
  intro s
  induction s with
  | nil => intro h; cases h
  | cons a rest ih =>
    intro h
    by_cases hr : c ∈ rest
    · obtain ⟨n, hn, t, hd, ht⟩ := ih hr
      refine ⟨n + 1, ?_, t, ?_, ht⟩
      · simp [lastIndexOfChar, hn]
      · simpa using hd
    · have hrneg : lastIndexOfChar c rest = -1 := lastIndexOfChar_of_not_mem c rest hr
      have hac : a = c := by
        rcases List.mem_cons.mp h with h1 | h2
        · exact h1.symm
        · exact absurd h2 hr
      refine ⟨0, ?_, rest, ?_, hr⟩
      · simp [lastIndexOfChar, hrneg, hac]
      · simp [hac]

/-- C5: the derived extension is the substring from the last dot of the
filename to its end (empty when there is no dot) and the initial base
name is the filename without that extension: with no dot the extension is
empty and the base is the whole name; with a dot the extension starts at
the last dot and the name is base ++ extension.  The stated pairs hold
for `report.v2.pdf` and `README`, and `handleFiles` initialises each new
entry with exactly these derived fields. -/
theorem splitName_spec :
    (∀ name : Str,
      ((Char.ofNat 46) ∉ name →
        getExtension name = [] ∧ getBaseName name = name) ∧
      ((Char.ofNat 46) ∈ name →
        ∃ t : Str, getExtension name = (Char.ofNat 46) :: t ∧
          (Char.ofNat 46) ∉ t ∧
          name = getBaseName name ++ (Char.ofNat 46) :: t)) ∧
    (getBaseName (("report.v2.pdf").data) = ("report.v2").data ∧
     getExtension (("report.v2.pdf").data) = (".pdf").data) ∧
    (getBaseName (("README").data) = ("README").data ∧
     getExtension (("README").data) = []) ∧
    (∀ (s : AppState) (f : JSFile),
      (handleFiles s [f]).files = s.files ++
        [{ original := f, newBaseName := getBaseName f.name,
           extension := getExtension f.name, receiverName := [] }]) := by
  have hdot : (Char.ofNat 46) = '.' := by decide
  refine ⟨?_, ⟨by decide, by decide⟩, ⟨by decide, by decide⟩, ?_⟩
  · intro name
    rw [hdot]
    constructor
    · intro h
      have hneg : lastIndexOfChar '.' name = -1 := lastIndexOfChar_of_not_mem '.' name h
      simp [getExtension, getBaseName, hneg]
    · intro h
      obtain ⟨n, hn, t, hd, ht⟩ := lastIndexOfChar_of_mem '.' name h
      have hne : ¬ ((n : Int) = -1) := by omega
      refine ⟨t, ?_, ht, ?_⟩
      · simp [getExtension, hn, hne]
        simpa using hd
      · have hbase : getBaseName name = name.take n := by
          simp [getBaseName, hn, hne]
        rw [hbase, ← hd, List.take_append_drop]
  · intro s f
    simp [handleFiles]

/-- Witness for C5 at the concrete filename `a.b`. -/
theorem splitName_spec_witness :
    ∃ t : Str, getExtension (("a.b").data) = (Char.ofNat 46) :: t ∧
      (Char.ofNat 46) ∉ t ∧
      ("a.b").data = getBaseName (("a.b").data) ++ (Char.ofNat 46) :: t :=
  (splitName_spec.1 (("a.b").data)).2 (by decide)

/-- C10: the derived base name and extension always reassemble the
original filename, and a filename whose only dot is its first character
splits into an empty base and an extension equal to the whole filename. -/
theorem getBaseName_append_getExtension :
    (∀ name : Str, getBaseName name ++ getExtension name = name) ∧
    getBaseName (((".gitignore")).data) = [] ∧
    getExtension (((".gitignore")).data) = ((".gitignore")).data := by
  refine ⟨?_, by decide, by decide⟩
  intro name
  by_cases h : lastIndexOfChar '.' name = -1
  · simp [getBaseName, getExtension, h]
  · simp [getBaseName, getExtension, h, List.take_append_drop]

end Namer
